import Mathlib

/-!
Verification of the klaas CLI session runtime against its specification.

The Rust sources are shallowly embedded: byte strings become `List Nat`
(each element a byte value below 256), Rust `char` values become `Nat`
Unicode scalar values, fallible operations return `Option` or
`Except String`, and stateful loops become explicit state passing.
-/

namespace Klaas

/-- UTF-8 encoding of a Unicode scalar value.  This embeds the Rust
operations `char::to_string().into_bytes()` and `str::bytes()` (per char). -/
def utf8EncodeChar (c : Nat) : List Nat :=
  if c < 0x80 then [c]
  else if c < 0x800 then [0xC0 + c / 64, 0x80 + c % 64]
  else if c < 0x10000 then [0xE0 + c / 4096, 0x80 + c / 64 % 64, 0x80 + c % 64]
  else [0xF0 + c / 262144, 0x80 + c / 4096 % 64, 0x80 + c / 64 % 64, 0x80 + c % 64]

/-- UTF-8 bytes of a list of scalar values (Rust `String::bytes`). -/
def utf8Bytes (s : List Nat) : List Nat :=
  s.flatMap utf8EncodeChar

/-- Modelled from the spec: the `base64` crate engine `STANDARD` used by
`crypto.rs::base64_encode` is not part of this repository; this is the
standard base64 alphabet (RFC 4648), mapping a sextet to its ASCII code. -/
def b64char (s : Nat) : Nat :=
  if s < 26 then 65 + s
  else if s < 52 then 97 + (s - 26)
  else if s < 62 then 48 + (s - 52)
  else if s = 62 then 43
  else 47

/-- Modelled from the spec: inverse alphabet lookup of standard base64;
returns `none` on a character outside the alphabet. -/
def b64val (c : Nat) : Option Nat :=
  if 65 ≤ c ∧ c ≤ 90 then some (c - 65)
  else if 97 ≤ c ∧ c ≤ 122 then some (c - 97 + 26)
  else if 48 ≤ c ∧ c ≤ 57 then some (c - 48 + 52)
  else if c = 43 then some 62
  else if c = 47 then some 63
  else none

/-- Modelled from the spec: `base64::engine::general_purpose::STANDARD.encode`,
as wrapped by `crypto.rs::base64_encode`.  Input is a byte list, output the
ASCII codes of the padded base64 text. -/
def base64_encode : List Nat → List Nat
  | a :: b :: c :: rest =>
      let n := a * 65536 + b * 256 + c
      b64char (n / 262144) :: b64char (n / 4096 % 64) :: b64char (n / 64 % 64) ::
        b64char (n % 64) :: base64_encode rest
  | [a, b] => [b64char (a / 4), b64char (a % 4 * 16 + b / 16), b64char (b % 16 * 4), 61]
  | [a] => [b64char (a / 4), b64char (a % 4 * 16), 61, 61]
  | [] => []

/-- Modelled from the spec: `STANDARD.decode` as wrapped by
`crypto.rs::base64_decode`.  Rejects input whose length is not a multiple of
four, characters outside the alphabet, padding not at the end, and non-zero
trailing bits (the crate's canonical-padding checks). -/
def base64_decode : List Nat → Option (List Nat)
  | [] => some []
  | c1 :: c2 :: c3 :: c4 :: rest =>
      match b64val c1, b64val c2 with
      | some v1, some v2 =>
        if c3 = 61 then
          if c4 = 61 ∧ rest = [] ∧ v2 % 16 = 0 then some [v1 * 4 + v2 / 16] else none
        else
          match b64val c3 with
          | some v3 =>
            if c4 = 61 then
              if rest = [] ∧ v3 % 4 = 0 then
                some [v1 * 4 + v2 / 16, v2 % 16 * 16 + v3 / 4]
              else none
            else
              match b64val c4 with
              | some v4 =>
                match base64_decode rest with
                | some bs =>
                    some ((v1 * 4 + v2 / 16) :: (v2 % 16 * 16 + v3 / 4) :: (v3 % 4 * 64 + v4) :: bs)
                | none => none
              | none => none
          | none => none
      | _, _ => none
  | _ => none

theorem b64val_b64char : ∀ s < 64, b64val (b64char s) = some s := by
  decide

theorem b64char_ne_pad : ∀ s < 64, b64char s ≠ 61 := by
  decide

theorem base64_decode_group (v1 v2 v3 v4 : Nat) (h1 : v1 < 64) (h2 : v2 < 64)
    (h3 : v3 < 64) (h4 : v4 < 64) (rest : List Nat) :
    base64_decode (b64char v1 :: b64char v2 :: b64char v3 :: b64char v4 :: rest) =
      (base64_decode rest).map
        (fun bs => (v1 * 4 + v2 / 16) :: (v2 % 16 * 16 + v3 / 4) :: (v3 % 4 * 64 + v4) :: bs) := by
  simp only [base64_decode]
  rw [b64val_b64char v1 h1, b64val_b64char v2 h2, b64val_b64char v3 h3, b64val_b64char v4 h4]
  simp only [b64char_ne_pad v3 h3, b64char_ne_pad v4 h4, if_false]
  cases base64_decode rest <;>
    simp [b64char_ne_pad v3 h3, b64char_ne_pad v4 h4]

theorem base64_decode_group2 (v1 v2 v3 : Nat) (h1 : v1 < 64) (h2 : v2 < 64)
    (h3 : v3 < 64) (hz : v3 % 4 = 0) :
    base64_decode [b64char v1, b64char v2, b64char v3, 61] =
      some [v1 * 4 + v2 / 16, v2 % 16 * 16 + v3 / 4] := by
  simp only [base64_decode]
  rw [b64val_b64char v1 h1, b64val_b64char v2 h2, b64val_b64char v3 h3]
  simp [b64char_ne_pad v3 h3, hz]

theorem base64_decode_group1 (v1 v2 : Nat) (h1 : v1 < 64) (h2 : v2 < 64)
    (hz : v2 % 16 = 0) :
    base64_decode [b64char v1, b64char v2, 61, 61] = some [v1 * 4 + v2 / 16] := by
  simp only [base64_decode]
  rw [b64val_b64char v1 h1, b64val_b64char v2 h2]
  simp [hz]

theorem base64_decode_encode (bs : List Nat) (h : ∀ b ∈ bs, b < 256) :
    base64_decode (base64_encode bs) = some bs := by
  induction bs using base64_encode.induct with
  | case1 a b c rest ih =>
      have ha : a < 256 := h a (by simp)
      have hb : b < 256 := h b (by simp)
      have hc : c < 256 := h c (by simp)
      have hrest : ∀ x ∈ rest, x < 256 := fun x hx => h x (by simp [hx])
      have hn : a * 65536 + b * 256 + c < 16777216 := by omega
      simp only [base64_encode]
      rw [base64_decode_group ((a * 65536 + b * 256 + c) / 262144)
        ((a * 65536 + b * 256 + c) / 4096 % 64) ((a * 65536 + b * 256 + c) / 64 % 64)
        ((a * 65536 + b * 256 + c) % 64) (by omega) (by omega) (by omega) (by omega)]
      rw [ih hrest]
      simp only [Option.map_some', Option.some.injEq, List.cons.injEq]
      refine ⟨by omega, by omega, by omega, trivial⟩
  | case2 a b =>
      have ha : a < 256 := h a (by simp)
      have hb : b < 256 := h b (by simp)
      simp only [base64_encode]
      rw [base64_decode_group2 (a / 4) (a % 4 * 16 + b / 16) (b % 16 * 4)
        (by omega) (by omega) (by omega) (by omega)]
      simp only [Option.some.injEq, List.cons.injEq]
      refine ⟨by omega, by omega, trivial⟩
  | case3 a =>
      have ha : a < 256 := h a (by simp)
      simp only [base64_encode]
      rw [base64_decode_group1 (a / 4) (a % 4 * 16) (by omega) (by omega) (by omega)]
      simp only [Option.some.injEq, List.cons.injEq]
      refine ⟨by omega, trivial⟩
  | case4 =>
      simp [base64_encode, base64_decode]

/-- Rotate a 32-bit word right by n bits (SHA-256 primitive). -/
def rotr32 (x n : Nat) : Nat := (x / 2 ^ n + x % 2 ^ n * 2 ^ (32 - n)) % 4294967296

/-- Modelled from the spec: the SHA-256 round constants (the `sha2` crate
backing `Hkdf::<Sha256>` is not part of this repository). -/
def shaK : List Nat :=
  [1116352408, 1899447441, 3049323471, 3921009573, 961987163,
   1508970993, 2453635748, 2870763221, 3624381080, 310598401,
   607225278, 1426881987, 1925078388, 2162078206, 2614888103,
   3248222580, 3835390401, 4022224774, 264347078, 604807628,
   770255983, 1249150122, 1555081692, 1996064986, 2554220882,
   2821834349, 2952996808, 3210313671, 3336571891, 3584528711,
   113926993, 338241895, 666307205, 773529912, 1294757372,
   1396182291, 1695183700, 1986661051, 2177026350, 2456956037,
   2730485921, 2820302411, 3259730800, 3345764771, 3516065817,
   3600352804, 4094571909, 275423344, 430227734, 506948616,
   659060556, 883997877, 958139571, 1322822218, 1537002063,
   1747873779, 1955562222, 2024104815, 2227730452, 2361852424,
   2428436474, 2756734187, 3204031479, 3329325298]

/-- SHA-256 initial hash state. -/
def shaH0 : List Nat :=
  [1779033703, 3144134277, 1013904242, 2773480762, 1359893119,
   2600822924, 528734635, 1541459225]

/-- SHA-256 message schedule: extends the 16 block words to 64. -/
def shaSchedule (block : List Nat) : List Nat :=
  (List.range 48).foldl
    (fun w j =>
      let x := w.getD (j + 1) 0
      let y := w.getD (j + 14) 0
      let s0 := rotr32 x 7 ^^^ rotr32 x 18 ^^^ x / 8
      let s1 := rotr32 y 17 ^^^ rotr32 y 19 ^^^ y / 1024
      w ++ [(w.getD j 0 + s0 + w.getD (j + 9) 0 + s1) % 4294967296])
    block

/-- SHA-256 compression of one 64-word schedule into the 8-word state. -/
def shaCompress (hs ws : List Nat) : List Nat :=
  let st := (List.range 64).foldl
    (fun st i =>
      let a := st.getD 0 0
      let b := st.getD 1 0
      let c := st.getD 2 0
      let d := st.getD 3 0
      let e := st.getD 4 0
      let f := st.getD 5 0
      let g := st.getD 6 0
      let h := st.getD 7 0
      let s1 := rotr32 e 6 ^^^ rotr32 e 11 ^^^ rotr32 e 25
      let ch := (e &&& f) ^^^ ((e ^^^ 4294967295) &&& g)
      let temp1 := (h + s1 + ch + shaK.getD i 0 + ws.getD i 0) % 4294967296
      let s0 := rotr32 a 2 ^^^ rotr32 a 13 ^^^ rotr32 a 22
      let maj := (a &&& b) ^^^ (a &&& c) ^^^ (b &&& c)
      let temp2 := (s0 + maj) % 4294967296
      [(temp1 + temp2) % 4294967296, a, b, c, (d + temp1) % 4294967296, e, f, g])
    hs
  (List.range 8).map (fun i => (hs.getD i 0 + st.getD i 0) % 4294967296)

/-- Modelled from the spec: full SHA-256 over a byte list, returning the
32 digest bytes. -/
def sha256 (msg : List Nat) : List Nat :=
  let ml := msg.length
  let padded := msg ++ 0x80 :: List.replicate ((119 - ml % 64) % 64) 0 ++
    (List.range 8).map (fun i => 8 * ml / 2 ^ (8 * (7 - i)) % 256)
  let word := fun (b i : Nat) =>
    padded.getD (64 * b + 4 * i) 0 * 16777216 + padded.getD (64 * b + 4 * i + 1) 0 * 65536 +
      padded.getD (64 * b + 4 * i + 2) 0 * 256 + padded.getD (64 * b + 4 * i + 3) 0
  let final := (List.range (padded.length / 64)).foldl
    (fun hs b => shaCompress hs (shaSchedule ((List.range 16).map (word b)))) shaH0
  (List.range 32).map (fun i => final.getD (i / 4) 0 / 2 ^ (8 * (3 - i % 4)) % 256)

/-- Modelled from the spec: HMAC-SHA256 (inner building block of
HKDF-SHA256, named by the spec for session-key derivation). -/
def hmacSha256 (key msg : List Nat) : List Nat :=
  let k0 := if key.length > 64 then sha256 key else key
  let ipadded := (List.range 64).map (fun i => k0.getD i 0 ^^^ 0x36)
  let opadded := (List.range 64).map (fun i => k0.getD i 0 ^^^ 0x5C)
  sha256 (opadded ++ sha256 (ipadded ++ msg))

/-- ASCII bytes of the constant `SESSION_KEY_INFO` string
"klaas-session-v1:" from `crypto.rs`. -/
def sessionKeyInfo : List Nat :=
  [107, 108, 97, 97, 115, 45, 115, 101, 115, 115, 105, 111, 110, 45, 118, 49, 58]

/-- Embeds `crypto.rs::derive_session_key`: HKDF-SHA256 with no salt
(zero key), ikm = MEK, info = "klaas-session-v1:" ++ session_id, 32-byte
output (a single expand block). -/
def derive_session_key (mek session_id : List Nat) : List Nat :=
  let prk := hmacSha256 (List.replicate 32 0) mek
  hmacSha256 prk (sessionKeyInfo ++ session_id ++ [1])

/-- GF(2^8) doubling with the AES reduction polynomial 0x11B. -/
def xtime (b : Nat) : Nat := if b < 128 then b * 2 else b * 2 ^^^ 0x11B

/-- GF(2^8) multiplication (Russian-peasant over 8 bits). -/
def gmulAes (a b : Nat) : Nat :=
  (((List.range 8).foldl
    (fun (st : Nat × Nat × Nat) _ =>
      let r := st.1
      let x := st.2.1
      let y := st.2.2
      (if y % 2 = 1 then r ^^^ x else r, xtime x, y / 2))
    (0, a, b))).1

/-- GF(2^8) exponentiation; `ginv` below is inversion via b^254. -/
def gpowAes (a n : Nat) : Nat := (List.range n).foldl (fun r _ => gmulAes r a) 1

/-- GF(2^8) multiplicative inverse (0 maps to 0). -/
def ginv (b : Nat) : Nat := gpowAes b 254

/-- Rotate an 8-bit value left by n bits. -/
def rotl8 (x n : Nat) : Nat := (x * 2 ^ n + x / 2 ^ (8 - n)) % 256

/-- Modelled from the spec: the AES S-box (inverse in GF(2^8) followed by
the affine transform), as used by the `aes` crate backing `Aes256Gcm`. -/
def sboxAes (b : Nat) : Nat :=
  let x := ginv (b % 256)
  x ^^^ rotl8 x 1 ^^^ rotl8 x 2 ^^^ rotl8 x 3 ^^^ rotl8 x 4 ^^^ 0x63

/-- Applies the S-box to each byte of a 32-bit word. -/
def subWord (w : Nat) : Nat :=
  sboxAes (w / 16777216) * 16777216 + sboxAes (w / 65536 % 256) * 65536 +
    sboxAes (w / 256 % 256) * 256 + sboxAes (w % 256)

/-- Rotates a 32-bit word left by one byte. -/
def rotWord (w : Nat) : Nat := w % 16777216 * 256 + w / 16777216

/-- AES round constants for the AES-256 key schedule. -/
def rconList : List Nat := [1, 2, 4, 8, 16, 32, 64]

/-- AES-256 key expansion: 60 round-key words from the 32-byte key. -/
def keyWords (key : List Nat) : List Nat :=
  (List.range 60).foldl
    (fun ws i =>
      if i < 8 then
        ws ++ [key.getD (4 * i) 0 * 16777216 + key.getD (4 * i + 1) 0 * 65536 +
          key.getD (4 * i + 2) 0 * 256 + key.getD (4 * i + 3) 0]
      else
        let prev := ws.getD (i - 1) 0
        let t :=
          if i % 8 = 0 then subWord (rotWord prev) ^^^ rconList.getD (i / 8 - 1) 0 * 16777216
          else if i % 8 = 4 then subWord prev
          else prev
        ws ++ [ws.getD (i - 8) 0 ^^^ t])
    []

/-- AES SubBytes step. -/
def subBytesB (st : List Nat) : List Nat := st.map sboxAes

/-- AES ShiftRows as a positional permutation of the column-major state. -/
def shiftRowsPerm : List Nat := [0, 5, 10, 15, 4, 9, 14, 3, 8, 13, 2, 7, 12, 1, 6, 11]

/-- AES ShiftRows step. -/
def shiftRowsB (st : List Nat) : List Nat := shiftRowsPerm.map (fun i => st.getD i 0)

/-- AES MixColumns on one column. -/
def mixColumn (a0 a1 a2 a3 : Nat) : List Nat :=
  [gmulAes a0 2 ^^^ gmulAes a1 3 ^^^ a2 ^^^ a3,
   a0 ^^^ gmulAes a1 2 ^^^ gmulAes a2 3 ^^^ a3,
   a0 ^^^ a1 ^^^ gmulAes a2 2 ^^^ gmulAes a3 3,
   gmulAes a0 3 ^^^ a1 ^^^ a2 ^^^ gmulAes a3 2]

/-- AES MixColumns step. -/
def mixColumnsB (st : List Nat) : List Nat :=
  (List.range 4).flatMap
    (fun c => mixColumn (st.getD (4 * c) 0) (st.getD (4 * c + 1) 0)
      (st.getD (4 * c + 2) 0) (st.getD (4 * c + 3) 0))

/-- AES AddRoundKey step. -/
def addRoundKeyB (st rk : List Nat) : List Nat :=
  (List.range 16).map (fun i => st.getD i 0 ^^^ rk.getD i 0)

/-- The 16 bytes of round key r from the expanded key words. -/
def roundKeyBytes (ws : List Nat) (r : Nat) : List Nat :=
  (List.range 16).map (fun i => ws.getD (4 * r + i / 4) 0 / 2 ^ (8 * (3 - i % 4)) % 256)

/-- Modelled from the spec: the AES-256 block cipher (14 rounds), backing
the `Aes256Gcm` AEAD named by the spec. -/
def aesEncryptBlock (key block : List Nat) : List Nat :=
  let ws := keyWords key
  let st0 := addRoundKeyB block (roundKeyBytes ws 0)
  let stMain := (List.range 13).foldl
    (fun st r => addRoundKeyB (mixColumnsB (shiftRowsB (subBytesB st))) (roundKeyBytes ws (r + 1)))
    st0
  addRoundKeyB (shiftRowsB (subBytesB stMain)) (roundKeyBytes ws 14)

/-- Big-endian byte list to Nat. -/
def bytesToNat (bs : List Nat) : Nat := bs.foldl (fun acc b => acc * 256 + b) 0

/-- A Nat as a 16-byte big-endian list. -/
def natToBytes16 (n : Nat) : List Nat :=
  (List.range 16).map (fun i => n / 2 ^ (8 * (15 - i)) % 256)

/-- AES-256 on a block given as a 128-bit Nat. -/
def aesCipherNat (key : List Nat) (block : Nat) : Nat :=
  bytesToNat (aesEncryptBlock key (natToBytes16 block))

/-- The GHASH reduction constant R = 0xE1 followed by 120 zero bits. -/
def gcmR : Nat := 0xE1 * 2 ^ 120

/-- GF(2^128) multiplication in the GCM bit ordering (NIST SP 800-38D). -/
def gf128mul (x y : Nat) : Nat :=
  (((List.range 128).foldl
    (fun (st : Nat × Nat) i =>
      let z := st.1
      let v := st.2
      (if x / 2 ^ (127 - i) % 2 = 1 then z ^^^ v else z,
       if v % 2 = 1 then v / 2 ^^^ gcmR else v / 2))
    (0, y))).1

/-- GHASH over a list of 128-bit blocks. -/
def ghashBlocks (h : Nat) (blocks : List Nat) : Nat :=
  blocks.foldl (fun y b => gf128mul (y ^^^ b) h) 0

/-- Ciphertext as zero-right-padded 128-bit blocks. -/
def ctBlocksNat (ct : List Nat) : List Nat :=
  (List.range ((ct.length + 15) / 16)).map
    (fun b => (List.range 16).foldl
      (fun acc i => acc * 256 + (if 16 * b + i < ct.length then ct.getD (16 * b + i) 0 else 0)) 0)

/-- The pre-counter block J0 for a 12-byte nonce: nonce ∥ 0x00000001. -/
def gcmJ0 (nonce : List Nat) : Nat := bytesToNat nonce * 4294967296 + 1

/-- inc32 applied k times to a counter block. -/
def inc32At (j0 k : Nat) : Nat :=
  j0 / 4294967296 * 4294967296 + (j0 % 4294967296 + k) % 4294967296

/-- Byte i of the GCM CTR keystream (counter blocks start at inc32(J0)). -/
def ksByte (key nonce : List Nat) (i : Nat) : Nat :=
  aesCipherNat key (inc32At (gcmJ0 nonce) (1 + i / 16)) / 2 ^ (8 * (15 - i % 16)) % 256

/-- CTR keystream XOR over the data (GCM encryption and decryption core). -/
def ctrXor (key nonce data : List Nat) : List Nat :=
  (List.range data.length).map (fun i => data.getD i 0 ^^^ ksByte key nonce i)

/-- The GCM hash subkey H = AES(key, 0^128). -/
def gcmHsub (key : List Nat) : Nat := aesCipherNat key 0

/-- The GHASH length block for empty AAD: 0^64 ∥ bit length of C. -/
def gcmLenBlock (ct : List Nat) : Nat := 8 * ct.length % 18446744073709551616

/-- The 16-byte GCM authentication tag over a ciphertext (no AAD). -/
def gcmTag (key nonce ct : List Nat) : List Nat :=
  natToBytes16 (aesCipherNat key (gcmJ0 nonce) ^^^
    ghashBlocks (gcmHsub key) (ctBlocksNat ct ++ [gcmLenBlock ct]))

/-- Modelled from the spec: `Aes256Gcm::encrypt` of the `aes_gcm` crate —
returns ciphertext with the 16-byte tag appended, as stated in
`crypto.rs::aes_gcm_encrypt`'s comment. -/
def gcmEncryptRaw (key nonce pt : List Nat) : List Nat :=
  let ct := ctrXor key nonce pt
  ct ++ gcmTag key nonce ct

/-- Modelled from the spec: `Aes256Gcm::decrypt` — splits off the trailing
16-byte tag, verifies it, and returns the CTR-decrypted plaintext; any
failure is a single opaque error (here `none`). -/
def gcmDecryptRaw (key nonce ctWithTag : List Nat) : Option (List Nat) :=
  if ctWithTag.length < 16 then none
  else
    let ct := ctWithTag.take (ctWithTag.length - 16)
    let tag := ctWithTag.drop (ctWithTag.length - 16)
    if tag = gcmTag key nonce ct then some (ctrXor key nonce ct) else none

/-- Embeds `crypto.rs::EncryptedContent` (envelope with base64 string
fields; strings are ASCII byte lists here). -/
structure EncryptedContent where
  v : Nat
  nonce : List Nat
  ciphertext : List Nat
  tag : List Nat
deriving DecidableEq

/-- Embeds `crypto.rs::aes_gcm_encrypt`, with the random nonce made an
explicit argument: returns (ciphertext, nonce, tag). -/
def aes_gcm_encrypt (key plaintext nonceBytes : List Nat) :
    List Nat × List Nat × List Nat :=
  let ciphertext_with_tag := gcmEncryptRaw key nonceBytes plaintext
  let ciphertext := ciphertext_with_tag.take (ciphertext_with_tag.length - 16)
  let tag := ciphertext_with_tag.drop (ciphertext_with_tag.length - 16)
  (ciphertext, nonceBytes, tag)

/-- Embeds `crypto.rs::aes_gcm_decrypt`: concatenates ciphertext and tag
and maps any AEAD failure to the opaque crypto error. -/
def aes_gcm_decrypt (key ciphertext nonce tag : List Nat) : Except String (List Nat) :=
  match gcmDecryptRaw key nonce (ciphertext ++ tag) with
  | some pt => Except.ok pt
  | none => Except.error "Decryption failed (wrong key or corrupted data)"

/-- Embeds `crypto.rs::encrypt_content` (nonce explicit). -/
def encrypt_content (session_key plaintext nonceBytes : List Nat) : EncryptedContent :=
  let r := aes_gcm_encrypt session_key plaintext nonceBytes
  { v := 1, nonce := base64_encode r.2.1, ciphertext := base64_encode r.1,
    tag := base64_encode r.2.2 }

/-- Embeds `crypto.rs::decrypt_content`, preserving the order of its
checks: version, base64 decodes, nonce size, tag size, then AEAD. -/
def decrypt_content (session_key : List Nat) (encrypted : EncryptedContent) :
    Except String (List Nat) :=
  if encrypted.v ≠ 1 then Except.error "Unsupported encryption version"
  else
    match base64_decode encrypted.nonce with
    | none => Except.error "Base64 decode failed"
    | some nonce =>
      match base64_decode encrypted.ciphertext with
      | none => Except.error "Base64 decode failed"
      | some ciphertext =>
        match base64_decode encrypted.tag with
        | none => Except.error "Base64 decode failed"
        | some tag =>
          if nonce.length ≠ 12 then Except.error "Invalid nonce size"
          else if tag.length ≠ 16 then Except.error "Invalid tag size"
          else aes_gcm_decrypt session_key ciphertext nonce tag

theorem getD_range_map (n i : Nat) (f : Nat → Nat) (h : i < n) :
    ((List.range n).map f).getD i 0 = f i := by
  simp [List.getD_eq_getElem?_getD, List.getElem?_map, List.getElem?_range, h]

theorem map_getD_self (l : List Nat) :
    (List.range l.length).map (fun i => l.getD i 0) = l := by
  apply List.ext_getElem
  · simp
  · intro i h1 h2
    simp [List.getD_eq_getElem?_getD, List.getElem?_eq_getElem h2]

theorem xor_lt_256 {a b : Nat} (ha : a < 256) (hb : b < 256) : a ^^^ b < 256 := by
  have h : Nat.bitwise bne a b < 2 ^ 8 := Nat.bitwise_lt (by norm_num [ha]) (by norm_num [hb])
  simpa [HXor.hXor, Xor.xor, Nat.xor] using h

theorem ctrXor_length (key nonce data : List Nat) :
    (ctrXor key nonce data).length = data.length := by
  simp [ctrXor]

theorem gcmTag_length (key nonce ct : List Nat) : (gcmTag key nonce ct).length = 16 := by
  simp [gcmTag, natToBytes16]

theorem natToBytes16_lt (n : Nat) : ∀ b ∈ natToBytes16 n, b < 256 := by
  intro b hb
  simp only [natToBytes16, List.mem_map, List.mem_range] at hb
  obtain ⟨i, _, rfl⟩ := hb
  exact Nat.mod_lt _ (by norm_num)

theorem gcmTag_lt (key nonce ct : List Nat) : ∀ b ∈ gcmTag key nonce ct, b < 256 :=
  natToBytes16_lt _

theorem ksByte_lt (key nonce : List Nat) (i : Nat) : ksByte key nonce i < 256 :=
  Nat.mod_lt _ (by norm_num)

theorem ctrXor_lt (key nonce pt : List Nat) (hpt : ∀ b ∈ pt, b < 256) :
    ∀ b ∈ ctrXor key nonce pt, b < 256 := by
  intro b hb
  simp only [ctrXor, List.mem_map, List.mem_range] at hb
  obtain ⟨i, hi, rfl⟩ := hb
  refine xor_lt_256 ?_ (ksByte_lt key nonce i)
  rcases Nat.lt_or_ge i pt.length with h | h
  · have : pt.getD i 0 ∈ pt := by
      rw [List.getD_eq_getElem?_getD, List.getElem?_eq_getElem h]
      exact List.getElem_mem h
    exact hpt _ this
  · omega

theorem ctrXor_involution (key nonce pt : List Nat) :
    ctrXor key nonce (ctrXor key nonce pt) = pt := by
  conv_lhs => rw [ctrXor, ctrXor_length]
  have : ∀ i ∈ List.range pt.length,
      (ctrXor key nonce pt).getD i 0 ^^^ ksByte key nonce i = pt.getD i 0 := by
    intro i hi
    rw [List.mem_range] at hi
    rw [ctrXor, getD_range_map _ _ _ hi, Nat.xor_cancel_right]
  rw [List.map_congr_left this]
  exact map_getD_self pt

theorem aead_content_roundtrip (key pt nonce : List Nat)
    (hpt : ∀ b ∈ pt, b < 256) (hn : nonce.length = 12) (hnb : ∀ b ∈ nonce, b < 256) :
    decrypt_content key (encrypt_content key pt nonce) = Except.ok pt := by
  have hctb := ctrXor_lt key nonce pt hpt
  have htgb := natToBytes16_lt (aesCipherNat key (gcmJ0 nonce) ^^^
    ghashBlocks (gcmHsub key) (ctBlocksNat (ctrXor key nonce pt) ++
      [gcmLenBlock (ctrXor key nonce pt)]))
  have hsplitlen : (ctrXor key nonce pt ++ gcmTag key nonce (ctrXor key nonce pt)).length - 16 =
      (ctrXor key nonce pt).length := by
    rw [List.length_append, gcmTag_length]
    omega
  have htake : (ctrXor key nonce pt ++ gcmTag key nonce (ctrXor key nonce pt)).take
      ((ctrXor key nonce pt ++ gcmTag key nonce (ctrXor key nonce pt)).length - 16) =
      ctrXor key nonce pt := by
    rw [hsplitlen]
    exact List.take_left _ _
  have hdrop : (ctrXor key nonce pt ++ gcmTag key nonce (ctrXor key nonce pt)).drop
      ((ctrXor key nonce pt ++ gcmTag key nonce (ctrXor key nonce pt)).length - 16) =
      gcmTag key nonce (ctrXor key nonce pt) := by
    rw [hsplitlen]
    exact List.drop_left _ _
  show decrypt_content key
      { v := 1,
        nonce := base64_encode nonce,
        ciphertext := base64_encode ((ctrXor key nonce pt ++
          gcmTag key nonce (ctrXor key nonce pt)).take
          ((ctrXor key nonce pt ++ gcmTag key nonce (ctrXor key nonce pt)).length - 16)),
        tag := base64_encode ((ctrXor key nonce pt ++
          gcmTag key nonce (ctrXor key nonce pt)).drop
          ((ctrXor key nonce pt ++ gcmTag key nonce (ctrXor key nonce pt)).length - 16)) } =
      Except.ok pt
  rw [htake, hdrop]
  rw [decrypt_content]
  simp only [if_neg (by omega : ¬ (1 : Nat) ≠ 1)]
  rw [base64_decode_encode nonce hnb, base64_decode_encode _ hctb,
    base64_decode_encode _ (gcmTag_lt key nonce _)]
  simp only
  rw [if_neg (by rw [hn]; omega), if_neg (by rw [gcmTag_length]; omega)]
  rw [aes_gcm_decrypt]
  have hlen2 : ¬ ((ctrXor key nonce pt ++ gcmTag key nonce (ctrXor key nonce pt)).length < 16) := by
    rw [List.length_append, gcmTag_length]
    omega
  rw [gcmDecryptRaw, if_neg hlen2]
  simp only [htake, hdrop, if_pos rfl]
  rw [ctrXor_involution]
  simp

/-- C1: for every 32-byte MEK, every session id, every plaintext byte
sequence, and any nonce the encryptor chooses, decrypting with the session
key derived from (MEK, session id) the envelope produced by encrypting the
plaintext under that same derived session key returns exactly the
plaintext. -/
theorem C1_session_roundtrip (mek session_id pt nonce : List Nat)
    (_hmek : mek.length = 32)
    (hpt : ∀ b ∈ pt, b < 256) (hn : nonce.length = 12) (hnb : ∀ b ∈ nonce, b < 256) :
    decrypt_content (derive_session_key mek session_id)
      (encrypt_content (derive_session_key mek session_id) pt nonce) = Except.ok pt :=
  aead_content_roundtrip _ pt nonce hpt hn hnb

theorem C1_session_roundtrip_witness :
    decrypt_content (derive_session_key (List.replicate 32 171) [115, 49])
      (encrypt_content (derive_session_key (List.replicate 32 171) [115, 49])
        [104, 105, 10] [0, 1, 2, 3, 4, 5, 6, 7, 8, 9, 10, 11]) = Except.ok [104, 105, 10] :=
  C1_session_roundtrip (List.replicate 32 171) [115, 49] [104, 105, 10]
    [0, 1, 2, 3, 4, 5, 6, 7, 8, 9, 10, 11] (by decide) (by decide) (by decide) (by decide)

theorem take_drop_tag (c t : List Nat) (ht : t.length = 16) :
    (c ++ t).take ((c ++ t).length - 16) = c ∧ (c ++ t).drop ((c ++ t).length - 16) = t := by
  have h : (c ++ t).length - 16 = c.length := by
    rw [List.length_append, ht]
    omega
  rw [h]
  exact ⟨List.take_left _ _, List.drop_left _ _⟩

/-- C5: decrypt_content returns a crypto error (and no plaintext) whenever
the envelope version is not 1, any field is malformed base64, the decoded
nonce is not 12 bytes, or the decoded tag is not 16 bytes; and on AEAD
authentication failure it returns the single opaque
"wrong key or corrupted data" error. -/
theorem C5_decrypt_errors (key : List Nat) (env : EncryptedContent) :
    (env.v ≠ 1 → ∃ e, decrypt_content key env = Except.error e)
    ∧ (base64_decode env.nonce = none → ∃ e, decrypt_content key env = Except.error e)
    ∧ (base64_decode env.ciphertext = none → ∃ e, decrypt_content key env = Except.error e)
    ∧ (base64_decode env.tag = none → ∃ e, decrypt_content key env = Except.error e)
    ∧ (∀ n, base64_decode env.nonce = some n → n.length ≠ 12 →
        ∃ e, decrypt_content key env = Except.error e)
    ∧ (∀ n t, base64_decode env.nonce = some n → base64_decode env.tag = some t →
        t.length ≠ 16 → ∃ e, decrypt_content key env = Except.error e)
    ∧ (∀ n c t, env.v = 1 → base64_decode env.nonce = some n →
        base64_decode env.ciphertext = some c → base64_decode env.tag = some t →
        n.length = 12 → t.length = 16 → t ≠ gcmTag key n c →
        decrypt_content key env =
          Except.error "Decryption failed (wrong key or corrupted data)") := by
  refine ⟨?_, ?_, ?_, ?_, ?_, ?_, ?_⟩
  · intro h
    rw [decrypt_content, if_pos h]
    exact ⟨_, rfl⟩
  · intro h
    rw [decrypt_content]
    by_cases hv : env.v ≠ 1
    · rw [if_pos hv]
      exact ⟨_, rfl⟩
    · rw [if_neg hv, h]
      exact ⟨_, rfl⟩
  · intro h
    rw [decrypt_content]
    by_cases hv : env.v ≠ 1
    · rw [if_pos hv]
      exact ⟨_, rfl⟩
    · rw [if_neg hv]
      cases hnd : base64_decode env.nonce with
      | none => exact ⟨_, rfl⟩
      | some n =>
          rw [h]
          exact ⟨_, rfl⟩
  · intro h
    rw [decrypt_content]
    by_cases hv : env.v ≠ 1
    · rw [if_pos hv]
      exact ⟨_, rfl⟩
    · rw [if_neg hv]
      cases hnd : base64_decode env.nonce with
      | none => exact ⟨_, rfl⟩
      | some n =>
          cases hcd : base64_decode env.ciphertext with
          | none => exact ⟨_, rfl⟩
          | some c =>
              rw [h]
              exact ⟨_, rfl⟩
  · intro n hnd h12
    rw [decrypt_content]
    by_cases hv : env.v ≠ 1
    · rw [if_pos hv]
      exact ⟨_, rfl⟩
    · rw [if_neg hv, hnd]
      cases hcd : base64_decode env.ciphertext with
      | none => exact ⟨_, rfl⟩
      | some c =>
          cases htd : base64_decode env.tag with
          | none => exact ⟨_, rfl⟩
          | some t =>
              dsimp only
              rw [if_pos h12]
              exact ⟨_, rfl⟩
  · intro n t hnd htd h16
    rw [decrypt_content]
    by_cases hv : env.v ≠ 1
    · rw [if_pos hv]
      exact ⟨_, rfl⟩
    · rw [if_neg hv, hnd]
      cases hcd : base64_decode env.ciphertext with
      | none => exact ⟨_, rfl⟩
      | some c =>
          rw [htd]
          dsimp only
          by_cases h12 : n.length ≠ 12
          · rw [if_pos h12]
            exact ⟨_, rfl⟩
          · rw [if_neg h12, if_pos h16]
            exact ⟨_, rfl⟩
  · intro n c t hv hnd hcd htd h12 h16 htag
    rw [decrypt_content, if_neg (by omega), hnd, hcd, htd]
    dsimp only
    rw [if_neg (by omega), if_neg (by omega)]
    rw [aes_gcm_decrypt]
    obtain ⟨htake, hdrop⟩ := take_drop_tag c t h16
    have hlen : ¬ ((c ++ t).length < 16) := by
      rw [List.length_append, h16]
      omega
    rw [gcmDecryptRaw, if_neg hlen]
    simp only [htake, hdrop]
    rw [if_neg htag]

theorem C5_decrypt_errors_witness :
    ∃ e, decrypt_content []
      { v := 2, nonce := [], ciphertext := [], tag := [] } = Except.error e :=
  (C5_decrypt_errors [] { v := 2, nonce := [], ciphertext := [], tag := [] }).1 (by decide)

/-- Embeds `websocket.rs::MAX_QUEUE_SIZE` (100 messages). -/
def MAX_QUEUE_SIZE : Nat := 100

/-- Embeds `websocket.rs::MAX_QUEUE_AGE` (5 minutes), in milliseconds. -/
def MAX_QUEUE_AGE_MS : Nat := 5 * 60 * 1000

/-- Embeds `websocket.rs::QueuedMessage`.  The `OutgoingMessage` payload
does not affect the queue logic and is abstracted to a `Nat` identity;
`timestamp` is the enqueue instant in milliseconds of a monotonic clock. -/
structure QueuedMessage where
  message : Nat
  timestamp : Nat
deriving DecidableEq

/-- Embeds `websocket.rs::queue_message`: prune entries of age ≥ 5 min
(`retain` keeps age < MAX_QUEUE_AGE), push the new message at the back,
then pop from the front while the length exceeds 100.  The while loop
removes exactly `length - 100` front elements, modelled by `List.drop`. -/
def queue_message (now : Nat) (q : List QueuedMessage) (msg : Nat) : List QueuedMessage :=
  List.drop
    ((q.filter (fun (m : QueuedMessage) => now - m.timestamp < MAX_QUEUE_AGE_MS) ++
        [({ message := msg, timestamp := now } : QueuedMessage)]).length - MAX_QUEUE_SIZE)
    (q.filter (fun (m : QueuedMessage) => now - m.timestamp < MAX_QUEUE_AGE_MS) ++
      [{ message := msg, timestamp := now }])

/-- Embeds `websocket.rs::drain_message_queue`: pop entries front to back,
skip those of age ≥ 5 min, send the rest in order.  Returns the payloads
delivered, in delivery order (the send path is assumed available, as in a
successful drain). -/
def drain_message_queue (now : Nat) : List QueuedMessage → List Nat
  | [] => []
  | m :: rest =>
      if now - m.timestamp ≥ MAX_QUEUE_AGE_MS then drain_message_queue now rest
      else m.message :: drain_message_queue now rest

theorem drain_eq_filter (now : Nat) (q : List QueuedMessage) :
    drain_message_queue now q =
      (q.filter (fun m => now - m.timestamp < MAX_QUEUE_AGE_MS)).map
        (fun m => m.message) := by
  induction q with
  | nil => rfl
  | cons m rest ih =>
      rw [drain_message_queue]
      by_cases h : now - m.timestamp ≥ MAX_QUEUE_AGE_MS
      · rw [if_pos h, ih, List.filter_cons,
          if_neg (by simp only [decide_eq_true_eq]; omega)]
      · rw [if_neg h, ih, List.filter_cons,
          if_pos (by simp only [decide_eq_true_eq]; omega)]
        rfl

/-- C2: after any enqueue the queue holds at most 100 entries; overflow
drops only the oldest entries (the post-enqueue queue is a suffix of the
pruned queue followed by the new entry, and the new entry itself always
survives); every entry surviving an enqueue has age below 5 minutes; and
drain delivers exactly the entries of age below 5 minutes, in FIFO order
(it equals the in-order fresh filter of the queue). -/
theorem C2_queue_bounds (now : Nat) (q : List QueuedMessage) (msg : Nat) :
    (queue_message now q msg).length ≤ 100
    ∧ (queue_message now q msg).IsSuffix
        (q.filter (fun m => now - m.timestamp < MAX_QUEUE_AGE_MS) ++
          [{ message := msg, timestamp := now }])
    ∧ ({ message := msg, timestamp := now } : QueuedMessage) ∈ queue_message now q msg
    ∧ (∀ m ∈ queue_message now q msg, now - m.timestamp < MAX_QUEUE_AGE_MS)
    ∧ drain_message_queue now (queue_message now q msg) =
        ((queue_message now q msg).filter
          (fun m => now - m.timestamp < MAX_QUEUE_AGE_MS)).map (fun m => m.message) := by
  refine ⟨?_, ?_, ?_, ?_, drain_eq_filter now _⟩
  · rw [queue_message]
    simp only [List.length_drop, List.length_append, List.length_cons, List.length_nil,
      MAX_QUEUE_SIZE]
    omega
  · rw [queue_message]
    exact List.drop_suffix _ _
  · rw [queue_message]
    rw [List.drop_append_of_le_length (by
      simp only [List.length_append, List.length_cons, List.length_nil, MAX_QUEUE_SIZE]
      omega)]
    exact List.mem_append_right _ (by simp)
  · intro m hm
    rw [queue_message] at hm
    have hm2 := List.mem_of_mem_drop hm
    rcases List.mem_append.mp hm2 with h | h
    · have hf := List.mem_filter.mp h
      simp only [decide_eq_true_eq] at hf
      exact hf.2
    · simp only [List.mem_singleton] at h
      subst h
      simp [MAX_QUEUE_AGE_MS]

/-- Embeds `websocket.rs::MAX_RECONNECT_ATTEMPTS`. -/
def MAX_RECONNECT_ATTEMPTS : Nat := 10

/-- Embeds `websocket.rs::BASE_BACKOFF_MS`. -/
def BASE_BACKOFF_MS : Nat := 500

/-- Embeds `websocket.rs::MAX_BACKOFF_MS`. -/
def MAX_BACKOFF_MS : Nat := 30000

/-- Embeds the backoff computation in `websocket.rs::reconnect`:
`min(BASE_BACKOFF_MS * 2^(attempt-1) + jitter, MAX_BACKOFF_MS)` where
`jitter` is drawn from `gen_range(0..1000)`. -/
def backoff_delay (current_attempt jitter : Nat) : Nat :=
  min (BASE_BACKOFF_MS * 2 ^ (current_attempt - 1) + jitter) MAX_BACKOFF_MS

/-- Embeds the attempt-counter guard of `websocket.rs::reconnect`: with the
stored counter at `attempt`, the call gives up (`Ok(false)`, `none` here)
when `attempt ≥ MAX_RECONNECT_ATTEMPTS`, otherwise increments the counter
and proceeds as attempt `attempt + 1`. -/
def reconnect_guard (attempt : Nat) : Option Nat :=
  if attempt ≥ MAX_RECONNECT_ATTEMPTS then none else some (attempt + 1)

/-- C3 counterexample: attempt 7 is reachable (the guard passes from a
stored counter of 6) and sleeps 30000 ms, which does not lie in
[500·2^6, 500·2^6 + 1000] ∩ [0, 30000] — that intersection is empty, so
the claimed interval membership fails for n = 7. -/
theorem C3_backoff_counterexample :
    reconnect_guard 6 = some 7
    ∧ backoff_delay 7 0 = 30000
    ∧ ¬ (500 * 2 ^ (7 - 1) ≤ backoff_delay 7 0
          ∧ backoff_delay 7 0 ≤ 500 * 2 ^ (7 - 1) + 1000
          ∧ backoff_delay 7 0 ≤ 30000) := by
  refine ⟨rfl, rfl, ?_⟩
  intro h
  have := h.1
  simp [backoff_delay, BASE_BACKOFF_MS, MAX_BACKOFF_MS] at this

/-- C3 (amended): for every attempt n with 1 ≤ n ≤ 10 and jitter below
1000 ms, the slept delay equals min(500·2^(n-1) + jitter, 30000); hence it
lies in [min(500·2^(n-1), 30000), min(500·2^(n-1) + 1000, 30000)].  For
n ≤ 6 this is the claimed interval [500·2^(n-1), 500·2^(n-1)+1000] (which
then already sits inside [0, 30000]); for n ≥ 7 the delay is exactly
30000 ms.  No more than 10 attempts are made: the guard refuses once the
counter reaches 10. -/
theorem C3_backoff_amended (n jitter : Nat) (h1 : 1 ≤ n) (h2 : n ≤ 10)
    (hj : jitter < 1000) :
    backoff_delay n jitter = min (500 * 2 ^ (n - 1) + jitter) 30000
    ∧ min (500 * 2 ^ (n - 1)) 30000 ≤ backoff_delay n jitter
    ∧ backoff_delay n jitter ≤ min (500 * 2 ^ (n - 1) + 1000) 30000
    ∧ (n ≤ 6 → 500 * 2 ^ (n - 1) ≤ backoff_delay n jitter
        ∧ backoff_delay n jitter ≤ 500 * 2 ^ (n - 1) + 1000
        ∧ backoff_delay n jitter ≤ 30000)
    ∧ (7 ≤ n → backoff_delay n jitter = 30000)
    ∧ (∀ a, MAX_RECONNECT_ATTEMPTS ≤ a → reconnect_guard a = none) := by
  refine ⟨rfl, ?_, ?_, ?_, ?_, ?_⟩
  · interval_cases n <;>
      simp [backoff_delay, BASE_BACKOFF_MS, MAX_BACKOFF_MS] <;> omega
  · interval_cases n <;>
      simp [backoff_delay, BASE_BACKOFF_MS, MAX_BACKOFF_MS] <;> omega
  · intro h6
    interval_cases n <;>
      simp [backoff_delay, BASE_BACKOFF_MS, MAX_BACKOFF_MS] <;> omega
  · intro h7
    interval_cases n <;>
      simp [backoff_delay, BASE_BACKOFF_MS, MAX_BACKOFF_MS] <;> omega
  · intro a ha
    rw [reconnect_guard, if_pos ha]

theorem C3_backoff_amended_witness :
    backoff_delay 3 250 = min (500 * 2 ^ (3 - 1) + 250) 30000
    ∧ min (500 * 2 ^ (3 - 1)) 30000 ≤ backoff_delay 3 250
    ∧ backoff_delay 3 250 ≤ min (500 * 2 ^ (3 - 1) + 1000) 30000
    ∧ (3 ≤ 6 → 500 * 2 ^ (3 - 1) ≤ backoff_delay 3 250
        ∧ backoff_delay 3 250 ≤ 500 * 2 ^ (3 - 1) + 1000
        ∧ backoff_delay 3 250 ≤ 30000)
    ∧ (7 ≤ 3 → backoff_delay 3 250 = 30000)
    ∧ (∀ a, MAX_RECONNECT_ATTEMPTS ≤ a → reconnect_guard a = none) :=
  C3_backoff_amended 3 250 (by decide) (by decide) (by decide)

/-- Embeds the subset of crossterm's `KeyCode` consulted by
`app.rs::key_event_to_bytes` and `guest/terminal.rs::key_event_to_bytes`;
`Other` stands for every remaining variant (all fall into the default
match arm). -/
inductive KeyCode where
  | Char (c : Nat)
  | Enter
  | Backspace
  | Tab
  | Esc
  | Up
  | Down
  | Right
  | Left
  | Home
  | End
  | PageUp
  | PageDown
  | Delete
  | Insert
  | F (n : Nat)
  | Other
deriving DecidableEq

/-- Embeds `app.rs::key_event_to_bytes`.  `ctrl` is whether
`event.modifiers` contains CONTROL (the only modifier consulted); the Rust
`c as u8` truncating cast is `c % 256`. -/
def key_event_to_bytes (code : KeyCode) (ctrl : Bool) : List Nat :=
  match code with
  | .Char c => if ctrl then [c % 256 &&& 0x1f] else utf8EncodeChar c
  | .Enter => [0x0d]
  | .Backspace => [0x7f]
  | .Tab => [0x09]
  | .Esc => [0x1b]
  | .Up => [0x1b, 91, 65]
  | .Down => [0x1b, 91, 66]
  | .Right => [0x1b, 91, 67]
  | .Left => [0x1b, 91, 68]
  | .Home => [0x1b, 91, 72]
  | .End => [0x1b, 91, 70]
  | .PageUp => [0x1b, 91, 53, 126]
  | .PageDown => [0x1b, 91, 54, 126]
  | .Delete => [0x1b, 91, 51, 126]
  | .Insert => [0x1b, 91, 50, 126]
  | .F n =>
    match n with
    | 1 => [0x1b, 79, 80]
    | 2 => [0x1b, 79, 81]
    | 3 => [0x1b, 79, 82]
    | 4 => [0x1b, 79, 83]
    | 5 => [0x1b, 91, 49, 53, 126]
    | 6 => [0x1b, 91, 49, 55, 126]
    | 7 => [0x1b, 91, 49, 56, 126]
    | 8 => [0x1b, 91, 49, 57, 126]
    | 9 => [0x1b, 91, 50, 48, 126]
    | 10 => [0x1b, 91, 50, 49, 126]
    | 11 => [0x1b, 91, 50, 51, 126]
    | 12 => [0x1b, 91, 50, 52, 126]
    | _ => []
  | .Other => []

/-- Embeds `guest/terminal.rs::key_event_to_bytes` (textually identical to
the host-side function). -/
def guest_key_event_to_bytes (code : KeyCode) (ctrl : Bool) : List Nat :=
  match code with
  | .Char c => if ctrl then [c % 256 &&& 0x1f] else utf8EncodeChar c
  | .Enter => [0x0d]
  | .Backspace => [0x7f]
  | .Tab => [0x09]
  | .Esc => [0x1b]
  | .Up => [0x1b, 91, 65]
  | .Down => [0x1b, 91, 66]
  | .Right => [0x1b, 91, 67]
  | .Left => [0x1b, 91, 68]
  | .Home => [0x1b, 91, 72]
  | .End => [0x1b, 91, 70]
  | .PageUp => [0x1b, 91, 53, 126]
  | .PageDown => [0x1b, 91, 54, 126]
  | .Delete => [0x1b, 91, 51, 126]
  | .Insert => [0x1b, 91, 50, 126]
  | .F n =>
    match n with
    | 1 => [0x1b, 79, 80]
    | 2 => [0x1b, 79, 81]
    | 3 => [0x1b, 79, 82]
    | 4 => [0x1b, 79, 83]
    | 5 => [0x1b, 91, 49, 53, 126]
    | 6 => [0x1b, 91, 49, 55, 126]
    | 7 => [0x1b, 91, 49, 56, 126]
    | 8 => [0x1b, 91, 49, 57, 126]
    | 9 => [0x1b, 91, 50, 48, 126]
    | 10 => [0x1b, 91, 50, 49, 126]
    | 11 => [0x1b, 91, 50, 51, 126]
    | 12 => [0x1b, 91, 50, 52, 126]
    | _ => []
  | .Other => []

theorem land31_mod256 (c : Nat) : c % 256 &&& 31 = c &&& 31 := by
  have h1 : c % 256 &&& 31 = c % 256 % 32 := Nat.and_pow_two_sub_one_eq_mod (c % 256) 5
  have h2 : c &&& 31 = c % 32 := Nat.and_pow_two_sub_one_eq_mod c 5
  rw [h1, h2, Nat.mod_mod_of_dvd c (by norm_num)]

/-- C4: the key codec realises the reference mapping of the spec on every
key event — Ctrl plus a character gives the single byte c AND 0x1f, a bare
character gives its UTF-8 bytes, the editing and navigation keys give
their listed VT sequences, F1 through F12 give theirs, every other key
(including F-keys outside 1..12) gives the empty sequence, and the guest
codec is the same total function. -/
theorem C4_key_codec (c n : Nat) (m : Bool) (hn : 13 ≤ n) :
    key_event_to_bytes (KeyCode.Char c) true = [c &&& 31]
    ∧ key_event_to_bytes (KeyCode.Char c) false = utf8EncodeChar c
    ∧ key_event_to_bytes KeyCode.Enter m = [0x0d]
    ∧ key_event_to_bytes KeyCode.Backspace m = [0x7f]
    ∧ key_event_to_bytes KeyCode.Tab m = [0x09]
    ∧ key_event_to_bytes KeyCode.Esc m = [0x1b]
    ∧ key_event_to_bytes KeyCode.Up m = [0x1b, 91, 65]
    ∧ key_event_to_bytes KeyCode.Down m = [0x1b, 91, 66]
    ∧ key_event_to_bytes KeyCode.Right m = [0x1b, 91, 67]
    ∧ key_event_to_bytes KeyCode.Left m = [0x1b, 91, 68]
    ∧ key_event_to_bytes KeyCode.Home m = [0x1b, 91, 72]
    ∧ key_event_to_bytes KeyCode.End m = [0x1b, 91, 70]
    ∧ key_event_to_bytes KeyCode.PageUp m = [0x1b, 91, 53, 126]
    ∧ key_event_to_bytes KeyCode.PageDown m = [0x1b, 91, 54, 126]
    ∧ key_event_to_bytes KeyCode.Delete m = [0x1b, 91, 51, 126]
    ∧ key_event_to_bytes KeyCode.Insert m = [0x1b, 91, 50, 126]
    ∧ key_event_to_bytes (KeyCode.F 1) m = [0x1b, 79, 80]
    ∧ key_event_to_bytes (KeyCode.F 2) m = [0x1b, 79, 81]
    ∧ key_event_to_bytes (KeyCode.F 3) m = [0x1b, 79, 82]
    ∧ key_event_to_bytes (KeyCode.F 4) m = [0x1b, 79, 83]
    ∧ key_event_to_bytes (KeyCode.F 5) m = [0x1b, 91, 49, 53, 126]
    ∧ key_event_to_bytes (KeyCode.F 6) m = [0x1b, 91, 49, 55, 126]
    ∧ key_event_to_bytes (KeyCode.F 7) m = [0x1b, 91, 49, 56, 126]
    ∧ key_event_to_bytes (KeyCode.F 8) m = [0x1b, 91, 49, 57, 126]
    ∧ key_event_to_bytes (KeyCode.F 9) m = [0x1b, 91, 50, 48, 126]
    ∧ key_event_to_bytes (KeyCode.F 10) m = [0x1b, 91, 50, 49, 126]
    ∧ key_event_to_bytes (KeyCode.F 11) m = [0x1b, 91, 50, 51, 126]
    ∧ key_event_to_bytes (KeyCode.F 12) m = [0x1b, 91, 50, 52, 126]
    ∧ key_event_to_bytes (KeyCode.F n) m = []
    ∧ key_event_to_bytes (KeyCode.F 0) m = []
    ∧ key_event_to_bytes KeyCode.Other m = []
    ∧ (∀ code mm, guest_key_event_to_bytes code mm = key_event_to_bytes code mm) := by
  obtain ⟨k, rfl⟩ : ∃ k, n = k + 13 := ⟨n - 13, by omega⟩
  refine ⟨?_, rfl, rfl, rfl, rfl, rfl, rfl, rfl, rfl, rfl, rfl, rfl, rfl, rfl, rfl, rfl,
    rfl, rfl, rfl, rfl, rfl, rfl, rfl, rfl, rfl, rfl, rfl, rfl, rfl, rfl, rfl, ?_⟩
  · simp [key_event_to_bytes, land31_mod256]
  · intro code mm
    cases code <;> rfl

theorem C4_key_codec_witness :
    key_event_to_bytes (KeyCode.Char 99) true = [99 &&& 31]
    ∧ key_event_to_bytes (KeyCode.Char 99) false = utf8EncodeChar 99
    ∧ key_event_to_bytes KeyCode.Enter true = [0x0d]
    ∧ key_event_to_bytes KeyCode.Backspace true = [0x7f]
    ∧ key_event_to_bytes KeyCode.Tab true = [0x09]
    ∧ key_event_to_bytes KeyCode.Esc true = [0x1b]
    ∧ key_event_to_bytes KeyCode.Up true = [0x1b, 91, 65]
    ∧ key_event_to_bytes KeyCode.Down true = [0x1b, 91, 66]
    ∧ key_event_to_bytes KeyCode.Right true = [0x1b, 91, 67]
    ∧ key_event_to_bytes KeyCode.Left true = [0x1b, 91, 68]
    ∧ key_event_to_bytes KeyCode.Home true = [0x1b, 91, 72]
    ∧ key_event_to_bytes KeyCode.End true = [0x1b, 91, 70]
    ∧ key_event_to_bytes KeyCode.PageUp true = [0x1b, 91, 53, 126]
    ∧ key_event_to_bytes KeyCode.PageDown true = [0x1b, 91, 54, 126]
    ∧ key_event_to_bytes KeyCode.Delete true = [0x1b, 91, 51, 126]
    ∧ key_event_to_bytes KeyCode.Insert true = [0x1b, 91, 50, 126]
    ∧ key_event_to_bytes (KeyCode.F 1) true = [0x1b, 79, 80]
    ∧ key_event_to_bytes (KeyCode.F 2) true = [0x1b, 79, 81]
    ∧ key_event_to_bytes (KeyCode.F 3) true = [0x1b, 79, 82]
    ∧ key_event_to_bytes (KeyCode.F 4) true = [0x1b, 79, 83]
    ∧ key_event_to_bytes (KeyCode.F 5) true = [0x1b, 91, 49, 53, 126]
    ∧ key_event_to_bytes (KeyCode.F 6) true = [0x1b, 91, 49, 55, 126]
    ∧ key_event_to_bytes (KeyCode.F 7) true = [0x1b, 91, 49, 56, 126]
    ∧ key_event_to_bytes (KeyCode.F 8) true = [0x1b, 91, 49, 57, 126]
    ∧ key_event_to_bytes (KeyCode.F 9) true = [0x1b, 91, 50, 48, 126]
    ∧ key_event_to_bytes (KeyCode.F 10) true = [0x1b, 91, 50, 49, 126]
    ∧ key_event_to_bytes (KeyCode.F 11) true = [0x1b, 91, 50, 51, 126]
    ∧ key_event_to_bytes (KeyCode.F 12) true = [0x1b, 91, 50, 52, 126]
    ∧ key_event_to_bytes (KeyCode.F 13) true = []
    ∧ key_event_to_bytes (KeyCode.F 0) true = []
    ∧ key_event_to_bytes KeyCode.Other true = []
    ∧ (∀ code mm, guest_key_event_to_bytes code mm = key_event_to_bytes code mm) :=
  C4_key_codec 99 13 true (by decide)

/-- Embeds Rust `char::is_ascii_alphanumeric`. -/
def is_ascii_alphanumeric (c : Nat) : Bool :=
  (48 ≤ c && c ≤ 57) || (65 ≤ c && c ≤ 90) || (97 ≤ c && c ≤ 122)

/-- Embeds `main.rs::is_valid_session_name`.  The name is a list of
Unicode scalar values; Rust `str::len` is the UTF-8 byte length while
`chars()` iterates scalar values, and the embedding preserves that
distinction. -/
def is_valid_session_name (name : List Nat) : Bool :=
  if name.isEmpty || (utf8Bytes name).length > 20 then false
  else name.all (fun c => is_ascii_alphanumeric c || c == 45 || c == 95)

/-- The session-name regex of the spec, `^[A-Za-z0-9_-]{1,20}$`, as a
predicate over the character list (refinement reference definition,
written from the spec's words). -/
def matches_session_name_regex (name : List Nat) : Bool :=
  decide (1 ≤ name.length) && decide (name.length ≤ 20) &&
    name.all (fun c => is_ascii_alphanumeric c || c == 45 || c == 95)

theorem utf8Bytes_ascii (s : List Nat) (h : ∀ c ∈ s, c < 128) : utf8Bytes s = s := by
  induction s with
  | nil => rfl
  | cons c cs ih =>
      rw [utf8Bytes, List.flatMap_cons]
      rw [utf8EncodeChar, if_pos (h c (by simp))]
      have hcs : cs.flatMap utf8EncodeChar = cs := ih (fun x hx => h x (by simp [hx]))
      rw [hcs]
      rfl

/-- C6: the session-name validator accepts exactly the strings matched by
`^[A-Za-z0-9_-]{1,20}$` — it is extensionally equal to the regex, the byte
length test notwithstanding, because every accepted character is ASCII. -/
theorem C6_session_name (name : List Nat) :
    is_valid_session_name name = matches_session_name_regex name := by
  by_cases hall : name.all (fun c => is_ascii_alphanumeric c || c == 45 || c == 95)
  · have hascii : ∀ c ∈ name, c < 128 := by
      intro c hc
      have := (List.all_eq_true.mp hall) c hc
      simp only [is_ascii_alphanumeric, Bool.or_eq_true, Bool.and_eq_true,
        decide_eq_true_eq, beq_iff_eq] at this
      omega
    have hlen : (utf8Bytes name).length = name.length := by
      rw [utf8Bytes_ascii name hascii]
    rw [is_valid_session_name, matches_session_name_regex, hall, hlen]
    rcases name with _ | ⟨x, xs⟩
    · rfl
    · simp only [List.isEmpty_cons, Bool.false_or, List.length_cons, Bool.and_true]
      by_cases h20 : xs.length + 1 > 20
      · rw [if_pos (by simpa using h20)]
        simp
        omega
      · rw [if_neg (by simpa using h20)]
        simp
        omega
  · rw [is_valid_session_name, matches_session_name_regex]
    have hall2 : (name.all fun c => is_ascii_alphanumeric c || c == 45 || c == 95) = false :=
      Bool.not_eq_true _ |>.mp hall
    rw [hall2]
    simp

/-- Modelled from the spec: the URL-safe base64 alphabet lookup used by the
`base64` crate engines URL_SAFE and URL_SAFE_NO_PAD (62 is `-`, 63 is `_`). -/
def b64urlVal (c : Nat) : Option Nat :=
  if 65 ≤ c ∧ c ≤ 90 then some (c - 65)
  else if 97 ≤ c ∧ c ≤ 122 then some (c - 97 + 26)
  else if 48 ≤ c ∧ c ≤ 57 then some (c - 48 + 52)
  else if c = 45 then some 62
  else if c = 95 then some 63
  else none

/-- Modelled from the spec: `URL_SAFE_NO_PAD.decode` — groups of four
sextet characters with a final partial group of two or three; padding
characters are outside the alphabet and rejected, as are non-zero trailing
bits. -/
def b64urlDecodeNoPad : List Nat → Option (List Nat)
  | [] => some []
  | [_] => none
  | [c1, c2] =>
      match b64urlVal c1, b64urlVal c2 with
      | some v1, some v2 => if v2 % 16 = 0 then some [v1 * 4 + v2 / 16] else none
      | _, _ => none
  | [c1, c2, c3] =>
      match b64urlVal c1, b64urlVal c2, b64urlVal c3 with
      | some v1, some v2, some v3 =>
          if v3 % 4 = 0 then some [v1 * 4 + v2 / 16, v2 % 16 * 16 + v3 / 4] else none
      | _, _, _ => none
  | c1 :: c2 :: c3 :: c4 :: rest =>
      match b64urlVal c1, b64urlVal c2, b64urlVal c3, b64urlVal c4 with
      | some v1, some v2, some v3, some v4 =>
          match b64urlDecodeNoPad rest with
          | some bs =>
              some ((v1 * 4 + v2 / 16) :: (v2 % 16 * 16 + v3 / 4) :: (v3 % 4 * 64 + v4) :: bs)
          | none => none
      | _, _, _, _ => none

/-- Modelled from the spec: `URL_SAFE.decode` — like standard base64
decoding but over the URL-safe alphabet, requiring canonical `=` padding
to a multiple of four. -/
def b64urlDecodePad : List Nat → Option (List Nat)
  | [] => some []
  | c1 :: c2 :: c3 :: c4 :: rest =>
      match b64urlVal c1, b64urlVal c2 with
      | some v1, some v2 =>
        if c3 = 61 then
          if c4 = 61 ∧ rest = [] ∧ v2 % 16 = 0 then some [v1 * 4 + v2 / 16] else none
        else
          match b64urlVal c3 with
          | some v3 =>
            if c4 = 61 then
              if rest = [] ∧ v3 % 4 = 0 then
                some [v1 * 4 + v2 / 16, v2 % 16 * 16 + v3 / 4]
              else none
            else
              match b64urlVal c4 with
              | some v4 =>
                match b64urlDecodePad rest with
                | some bs =>
                    some ((v1 * 4 + v2 / 16) :: (v2 % 16 * 16 + v3 / 4) ::
                      (v3 % 4 * 64 + v4) :: bs)
                | none => none
              | none => none
          | none => none
      | _, _ => none
  | _ => none

/-- Whether a byte is a UTF-8 continuation byte. -/
def isCont (b : Nat) : Bool := 128 ≤ b && b ≤ 191

/-- Valid second byte of a three-byte UTF-8 sequence with lead `b`. -/
def utf8Lead3Ok (b b2 : Nat) : Bool :=
  (b == 224 && 160 ≤ b2 && b2 ≤ 191) || (225 ≤ b && b ≤ 236 && isCont b2) ||
    (b == 237 && 128 ≤ b2 && b2 ≤ 159) || (238 ≤ b && b ≤ 239 && isCont b2)

/-- Valid second byte of a four-byte UTF-8 sequence with lead `b`. -/
def utf8Lead4Ok (b b2 : Nat) : Bool :=
  (b == 240 && 144 ≤ b2 && b2 ≤ 191) || (241 ≤ b && b ≤ 243 && isCont b2) ||
    (b == 244 && 128 ≤ b2 && b2 ≤ 143) || false

/-- Embeds the validity check performed by Rust `str::from_utf8`
(standard UTF-8 well-formedness, surrogates and overlong forms rejected). -/
def utf8Valid : List Nat → Bool
  | [] => true
  | b :: rest =>
    if b < 128 then utf8Valid rest
    else if b < 194 then false
    else if b < 224 then
      match rest with
      | b2 :: r2 => isCont b2 && utf8Valid r2
      | [] => false
    else if b < 240 then
      match rest with
      | b2 :: b3 :: r3 => utf8Lead3Ok b b2 && isCont b3 && utf8Valid r3
      | _ => false
    else if b < 245 then
      match rest with
      | b2 :: b3 :: b4 :: r4 => utf8Lead4Ok b b2 && isCont b3 && isCont b4 && utf8Valid r4
      | _ => false
    else false

/-- Embeds Rust `str::split` on a single separator byte, preserving empty
segments (used for the JWT `token.split('.')`). -/
def splitOnByte (sep : Nat) : List Nat → List (List Nat)
  | [] => [[]]
  | c :: rest =>
      let r := splitOnByte sep rest
      if c = sep then [] :: r
      else
        match r with
        | s :: ss => (c :: s) :: ss
        | [] => [[c]]

/-- Embeds `app.rs::TOKEN_REFRESH_BUFFER_SECS` (60 seconds). -/
def TOKEN_REFRESH_BUFFER_SECS : Int := 60

/-- Embeds the payload-decoding chain of `app.rs::is_token_valid`:
URL_SAFE_NO_PAD first, then URL_SAFE, then URL_SAFE after manually
padding with `=` to a multiple of four. -/
def jwt_payload_decode (p : List Nat) : Option (List Nat) :=
  match b64urlDecodeNoPad p with
  | some d => some d
  | none =>
    match b64urlDecodePad p with
    | some d => some d
    | none => b64urlDecodePad (p ++ List.replicate ((4 - p.length % 4) % 4) 61)

/-- Embeds `app.rs::is_token_valid`.  `parseExp` stands for the external
`serde_json` parse composed with `get("exp").and_then(as_i64)` (modelled
from the spec: it yields the integer `exp` claim when the payload parses
and has one, `none` otherwise); `now` is `Utc::now().timestamp()`. -/
def is_token_valid (parseExp : List Nat → Option Int) (now : Int) (token : List Nat) :
    Option Bool :=
  let parts := splitOnByte 46 token
  if parts.length ≠ 3 then none
  else
    match jwt_payload_decode (parts.getD 1 []) with
    | none => none
    | some payload =>
      if utf8Valid payload = false then none
      else
        match parseExp payload with
        | none => none
        | some exp => some (decide (exp > now + TOKEN_REFRESH_BUFFER_SECS))

/-- The caller decision in `app.rs::ensure_authenticated_with_mek`
(lines 623-638): `Some(true)` and `None` both return the stored access
token unchanged; only `Some(false)` goes to the refresh path. -/
inductive TokenDecision where
  | useExisting
  | refresh
deriving DecidableEq

/-- Embeds the match on `is_token_valid` in
`ensure_authenticated_with_mek`. -/
def token_use_decision : Option Bool → TokenDecision
  | some true => TokenDecision.useExisting
  | some false => TokenDecision.refresh
  | none => TokenDecision.useExisting

/-- C7: the token-validity check decodes the JWT payload trying unpadded
then padded base64url variants (then a manually padded retry), returns
valid exactly when exp exceeds now plus the 60-second margin, and returns
the cannot-validate result (None) on wrong part count, undecodable
payload, non-UTF-8 payload, or unparsable/missing exp — in which case the
caller uses the token anyway. -/
theorem C7_token_validity (pe : List Nat → Option Int) (now : Int) (token : List Nat) :
    ((splitOnByte 46 token).length ≠ 3 → is_token_valid pe now token = none)
    ∧ (∀ payload exp, (splitOnByte 46 token).length = 3 →
        jwt_payload_decode ((splitOnByte 46 token).getD 1 []) = some payload →
        utf8Valid payload = true → pe payload = some exp →
        is_token_valid pe now token = some (decide (exp > now + 60)))
    ∧ ((splitOnByte 46 token).length = 3 →
        jwt_payload_decode ((splitOnByte 46 token).getD 1 []) = none →
        is_token_valid pe now token = none)
    ∧ (∀ payload, (splitOnByte 46 token).length = 3 →
        jwt_payload_decode ((splitOnByte 46 token).getD 1 []) = some payload →
        utf8Valid payload = false → is_token_valid pe now token = none)
    ∧ (∀ payload, (splitOnByte 46 token).length = 3 →
        jwt_payload_decode ((splitOnByte 46 token).getD 1 []) = some payload →
        utf8Valid payload = true → pe payload = none →
        is_token_valid pe now token = none)
    ∧ (∀ p d, b64urlDecodeNoPad p = some d → jwt_payload_decode p = some d)
    ∧ (∀ p d, b64urlDecodeNoPad p = none → b64urlDecodePad p = some d →
        jwt_payload_decode p = some d)
    ∧ (∀ p, b64urlDecodeNoPad p = none → b64urlDecodePad p = none →
        jwt_payload_decode p =
          b64urlDecodePad (p ++ List.replicate ((4 - p.length % 4) % 4) 61))
    ∧ token_use_decision none = TokenDecision.useExisting
    ∧ token_use_decision (some true) = TokenDecision.useExisting
    ∧ token_use_decision (some false) = TokenDecision.refresh := by
  refine ⟨?_, ?_, ?_, ?_, ?_, ?_, ?_, ?_, rfl, rfl, rfl⟩
  · intro h
    rw [is_token_valid]
    simp only [if_pos h]
  · intro payload exp h3 hdec hutf hpe
    rw [is_token_valid]
    simp only [if_neg (by omega : ¬ (splitOnByte 46 token).length ≠ 3)]
    rw [hdec]
    dsimp only
    rw [if_neg (by simp [hutf]), hpe]
    rfl
  · intro h3 hdec
    rw [is_token_valid]
    simp only [if_neg (by omega : ¬ (splitOnByte 46 token).length ≠ 3)]
    rw [hdec]
  · intro payload h3 hdec hutf
    rw [is_token_valid]
    simp only [if_neg (by omega : ¬ (splitOnByte 46 token).length ≠ 3)]
    rw [hdec]
    dsimp only
    rw [if_pos hutf]
  · intro payload h3 hdec hutf hpe
    rw [is_token_valid]
    simp only [if_neg (by omega : ¬ (splitOnByte 46 token).length ≠ 3)]
    rw [hdec]
    dsimp only
    rw [if_neg (by simp [hutf]), hpe]
  · intro p d h
    rw [jwt_payload_decode, h]
  · intro p d h1 h2
    rw [jwt_payload_decode, h1, h2]
  · intro p h1 h2
    rw [jwt_payload_decode, h1, h2]

theorem C7_token_validity_witness :
    is_token_valid (fun _ => some 1000) 0 [97, 46, 101, 51, 48, 46, 98] =
      some (decide ((1000 : Int) > 0 + 60)) :=
  (C7_token_validity (fun _ => some 1000) 0 [97, 46, 101, 51, 48, 46, 98]).2.1
    [123, 125] 1000 (by decide) (by decide) (by decide) rfl

/-- The OAuth error kinds handled by `auth.rs::poll_for_token`, plus the
success case. -/
inductive TokenPollResponse where
  | success
  | authorizationPending
  | slowDown
  | expiredToken
  | accessDenied
  | otherError
deriving DecidableEq

/-- One iteration input of the poll loop: either the local expiry check
`start_time.elapsed() >= expiry_duration` fires, or a token-endpoint
response arrives. -/
inductive PollEvent where
  | deadlineElapsed
  | response (r : TokenPollResponse)
deriving DecidableEq

/-- Outcomes of `poll_for_token` (`TokenResponse` abstracted away;
Cancelled/Skipped keyboard paths are outside this claim). -/
inductive PollOutcome where
  | tokens
  | expired
  | denied
  | serverError
deriving DecidableEq

/-- Embeds the loop of `auth.rs::poll_for_token` as a transition over the
sequence of iteration events, threading `current_interval_secs`: the local
deadline and an `expired_token` response both end with the expired error,
`slow_down` adds 5 seconds to the interval and continues,
`authorization_pending` continues unchanged, success and `access_denied`
terminate.  Returns the outcome and the final interval, or `none` when the
trace ends while still polling. -/
def poll_for_token (interval : Nat) : List PollEvent → Option (PollOutcome × Nat)
  | [] => none
  | PollEvent.deadlineElapsed :: _ => some (PollOutcome.expired, interval)
  | PollEvent.response TokenPollResponse.success :: _ => some (PollOutcome.tokens, interval)
  | PollEvent.response TokenPollResponse.authorizationPending :: rest =>
      poll_for_token interval rest
  | PollEvent.response TokenPollResponse.slowDown :: rest =>
      poll_for_token (interval + 5) rest
  | PollEvent.response TokenPollResponse.expiredToken :: _ =>
      some (PollOutcome.expired, interval)
  | PollEvent.response TokenPollResponse.accessDenied :: _ =>
      some (PollOutcome.denied, interval)
  | PollEvent.response TokenPollResponse.otherError :: _ =>
      some (PollOutcome.serverError, interval)

/-- Final outcomes of `auth.rs::authenticate`. -/
inductive AuthOutcome where
  | tokens
  | denied
  | serverError
  | stillPolling
deriving DecidableEq

/-- Embeds `auth.rs::authenticate`: each list element is one round of the
device flow (a fresh `POST /auth/device` giving an initial interval and
the poll events of that round); an expired outcome silently restarts with
the next round, every other outcome is final. -/
def authenticate : List (Nat × List PollEvent) → Option AuthOutcome
  | [] => none
  | (i0, evs) :: rest =>
      match poll_for_token i0 evs with
      | some (PollOutcome.tokens, _) => some AuthOutcome.tokens
      | some (PollOutcome.expired, _) => authenticate rest
      | some (PollOutcome.denied, _) => some AuthOutcome.denied
      | some (PollOutcome.serverError, _) => some AuthOutcome.serverError
      | none => some AuthOutcome.stillPolling

theorem poll_interval_monotone (evs : List PollEvent) :
    ∀ interval o iFinal, poll_for_token interval evs = some (o, iFinal) →
      interval ≤ iFinal := by
  induction evs with
  | nil =>
      intro interval o iFinal h
      simp [poll_for_token] at h
  | cons e rest ih =>
      intro interval o iFinal h
      cases e with
      | deadlineElapsed =>
          rw [poll_for_token] at h
          cases h
          omega
      | response r =>
          cases r <;> rw [poll_for_token] at h
          · cases h
            omega
          · exact ih interval o iFinal h
          · have := ih (interval + 5) o iFinal h
            omega
          · cases h
            omega
          · cases h
            omega
          · cases h
            omega

/-- C8: every slow_down response increases the polling interval by exactly
5 seconds and the interval never decreases over the life of the poll loop;
an expired_token response or the local expires_in deadline makes the
authenticate wrapper restart the whole flow with the next fresh
POST /auth/device round; access_denied is terminal. -/
theorem C8_device_flow (i : Nat) (evs : List PollEvent)
    (flow : Nat × List PollEvent) (rest : List (Nat × List PollEvent)) :
    poll_for_token i (PollEvent.response TokenPollResponse.slowDown :: evs) =
      poll_for_token (i + 5) evs
    ∧ poll_for_token i (PollEvent.response TokenPollResponse.authorizationPending :: evs) =
      poll_for_token i evs
    ∧ (∀ o iFinal, poll_for_token i evs = some (o, iFinal) → i ≤ iFinal)
    ∧ poll_for_token i (PollEvent.deadlineElapsed :: evs) = some (PollOutcome.expired, i)
    ∧ poll_for_token i (PollEvent.response TokenPollResponse.expiredToken :: evs) =
      some (PollOutcome.expired, i)
    ∧ ((∃ iFinal, poll_for_token flow.1 flow.2 = some (PollOutcome.expired, iFinal)) →
        authenticate (flow :: rest) = authenticate rest)
    ∧ (∀ iFinal, poll_for_token flow.1 flow.2 = some (PollOutcome.denied, iFinal) →
        authenticate (flow :: rest) = some AuthOutcome.denied)
    ∧ (∀ iFinal, poll_for_token flow.1 flow.2 = some (PollOutcome.tokens, iFinal) →
        authenticate (flow :: rest) = some AuthOutcome.tokens) := by
  refine ⟨rfl, rfl, poll_interval_monotone evs i, rfl, rfl, ?_, ?_, ?_⟩
  · rintro ⟨iFinal, h⟩
    cases flow with
    | mk i0 fevs =>
        rw [authenticate]
        simp only at h
        rw [h]
  · intro iFinal h
    cases flow with
    | mk i0 fevs =>
        rw [authenticate]
        simp only at h
        rw [h]
  · intro iFinal h
    cases flow with
    | mk i0 fevs =>
        rw [authenticate]
        simp only at h
        rw [h]

theorem C8_device_flow_witness :
    authenticate ((5, [PollEvent.response TokenPollResponse.expiredToken]) ::
        [(5, [PollEvent.response TokenPollResponse.success])]) =
      authenticate [(5, [PollEvent.response TokenPollResponse.success])] :=
  (C8_device_flow 5 [] (5, [PollEvent.response TokenPollResponse.expiredToken])
      [(5, [PollEvent.response TokenPollResponse.success])]).2.2.2.2.2.1
    ⟨5, by decide⟩

/-- Embeds Rust `str::is_char_boundary` on a UTF-8 byte list: index 0 and
the length are boundaries, indices past the end are not, and an interior
index is a boundary exactly when the byte there is not a continuation
byte. -/
def is_char_boundary (s : List Nat) (i : Nat) : Bool :=
  if i = 0 then true
  else if i = s.length then true
  else if i > s.length then false
  else !(128 ≤ s.getD i 0 && s.getD i 0 ≤ 191)

/-- Embeds the truncation step of `terminal.rs::draw_status_line`: when
`status.len() > cols` the code evaluates `&status[..cols]`, which panics
(modelled `none`) when `cols` is not a char boundary of the string; the
status is a UTF-8 byte list and `cols` the terminal width. -/
def truncate_status (status : List Nat) (cols : Nat) : Option (List Nat) :=
  if status.length > cols then
    if is_char_boundary status cols then some (status.take cols) else none
  else some status

/-- The Attached status string of `app.rs::run`,
"\x1b[2;32m● klaas\x1b[0m", as UTF-8 bytes (● is E2 97 8F). -/
def status_attached : List Nat :=
  [27, 91, 50, 59, 51, 50, 109, 226, 151, 143, 32, 107, 108, 97, 97, 115, 27, 91, 48, 109]

/-- C9: the truncation step of draw_status_line is not total — with the
runtime's own Attached status string and a terminal width of 8 columns,
`status.len() > cols` holds and byte index 8 falls inside the multi-byte
●, which is not a char boundary, so `&status[..cols]` panics in Rust. -/
theorem C9_draw_status_line_panics :
    truncate_status status_attached 8 = none
    ∧ status_attached.length > 8
    ∧ is_char_boundary status_attached 8 = false := by
  decide

/-- Embeds `types.rs::InterceptorState` (as used by `interceptor.rs`). -/
inductive InterceptorState where
  | Normal
  | ReadingCommand
deriving DecidableEq

/-- Embeds `types.rs::Command` (the wrapper commands recognised by
`interceptor.rs::match_command`). -/
inductive Command where
  | Attach
  | Detach
  | Status
  | Help
deriving DecidableEq

/-- Rust `char::to_lowercase` restricted to scalar values below 256, the
only values the interceptor ever buffers (it pushes `byte as char`):
ASCII A-Z and Latin-1 À-Þ (except ×) map down by 32. -/
def char_to_lower (c : Nat) : Nat :=
  if 65 ≤ c ∧ c ≤ 90 then c + 32
  else if 192 ≤ c ∧ c ≤ 222 ∧ c ≠ 215 then c + 32
  else c

/-- Rust `char::is_whitespace` restricted to scalar values below 256. -/
def is_rust_whitespace (c : Nat) : Bool :=
  c == 9 || c == 10 || c == 11 || c == 12 || c == 13 || c == 32 || c == 133 || c == 160

/-- Rust `str::trim` over a character list. -/
def trimList (s : List Nat) : List Nat :=
  ((s.dropWhile is_rust_whitespace).reverse.dropWhile is_rust_whitespace).reverse

/-- Embeds `interceptor.rs::match_command`: lowercase the buffer, accept
"nexo" alone as Help, otherwise require the "nexo " prefix and match the
trimmed remainder against the known commands ("" is Help). -/
def match_command (buffer : List Nat) : Option Command :=
  let input := buffer.map char_to_lower
  let trimmed := trimList input
  if trimmed = [110, 101, 120, 111] then some Command.Help
  else if ¬ (List.isPrefixOf [110, 101, 120, 111, 32] input) then none
  else
    let cmd := trimList (input.drop 5)
    if cmd = [97, 116, 116, 97, 99, 104] then some Command.Attach
    else if cmd = [100, 101, 116, 97, 99, 104] then some Command.Detach
    else if cmd = [115, 116, 97, 116, 117, 115] then some Command.Status
    else if cmd = [104, 101, 108, 112] then some Command.Help
    else if cmd = [] then some Command.Help
    else none

/-- Embeds `interceptor.rs::CommandInterceptor` (the timeout instant is
outside these claims).  `buffer` is the Rust String as its character
scalar values. -/
structure CommandInterceptor where
  state : InterceptorState
  buffer : List Nat
  at_line_start : Bool
deriving DecidableEq

/-- Embeds `interceptor.rs::ProcessResult`. -/
inductive ProcessResult where
  | Forward (bytes : List Nat)
  | Buffer
  | Cmd (c : Command)
deriving DecidableEq

/-- Embeds `interceptor.rs::process_normal`. -/
def process_normal (ip : CommandInterceptor) (byte : Nat) :
    CommandInterceptor × ProcessResult :=
  if byte = 47 ∧ ip.at_line_start then
    ({ ip with state := InterceptorState.ReadingCommand, buffer := [] }, ProcessResult.Buffer)
  else if byte = 10 ∨ byte = 13 then
    ({ ip with at_line_start := true }, ProcessResult.Forward [byte])
  else
    ({ ip with at_line_start := false }, ProcessResult.Forward [byte])

/-- Embeds `interceptor.rs::process_reading`.  On Enter the buffered
characters are re-emitted through `String::bytes`, i.e. UTF-8 encoded. -/
def process_reading (ip : CommandInterceptor) (byte : Nat) :
    CommandInterceptor × ProcessResult :=
  if byte = 10 ∨ byte = 13 then
    match match_command ip.buffer with
    | some cmd =>
        ({ ip with state := InterceptorState.Normal, at_line_start := true },
         ProcessResult.Cmd cmd)
    | none =>
        ({ ip with state := InterceptorState.Normal, at_line_start := true, buffer := [] },
         ProcessResult.Forward (47 :: utf8Bytes ip.buffer ++ [byte]))
  else if byte = 127 ∨ byte = 8 then
    if ip.buffer = [] then
      ({ ip with state := InterceptorState.Normal }, ProcessResult.Forward [47, byte])
    else
      ({ ip with buffer := ip.buffer.dropLast }, ProcessResult.Buffer)
  else
    ({ ip with buffer := ip.buffer ++ [byte] }, ProcessResult.Buffer)

/-- Embeds `interceptor.rs::process_byte`. -/
def process_byte (ip : CommandInterceptor) (byte : Nat) :
    CommandInterceptor × ProcessResult :=
  match ip.state with
  | InterceptorState.Normal => process_normal ip byte
  | InterceptorState.ReadingCommand => process_reading ip byte

/-- Embeds `interceptor.rs::process`: fold the bytes through the state
machine, concatenating forwarded bytes and collecting emitted commands in
order. -/
def process (ip : CommandInterceptor) :
    List Nat → CommandInterceptor × List Nat × List Command
  | [] => (ip, [], [])
  | byte :: rest =>
      let step := process_byte ip byte
      let cont := process step.1 rest
      match step.2 with
      | ProcessResult.Forward bs => (cont.1, bs ++ cont.2.1, cont.2.2)
      | ProcessResult.Buffer => (cont.1, cont.2.1, cont.2.2)
      | ProcessResult.Cmd c => (cont.1, cont.2.1, c :: cont.2.2)

/-- Embeds `interceptor.rs::CommandInterceptor::new`. -/
def interceptor_new : CommandInterceptor :=
  { state := InterceptorState.Normal, buffer := [], at_line_start := true }

/-- C10 counterexample: the line "/", 0x80, Enter — no command matches, so
everything is forwarded, but the consumed byte 0x80 was buffered as the
char U+0080 and is re-emitted as its UTF-8 encoding C2 80: the child
receives [2F, C2, 80, 0A], not the consumed [2F, 80, 0A]. -/
theorem C10_interceptor_counterexample :
    (process interceptor_new [47, 128, 10]).2.1 = [47, 194, 128, 10]
    ∧ [47, 194, 128, 10] ≠ [47, 128, 10] := by
  decide

theorem process_step_buffer (ip ip2 : CommandInterceptor) (byte : Nat) (rest : List Nat)
    (h : process_byte ip byte = (ip2, ProcessResult.Buffer)) :
    process ip (byte :: rest) = process ip2 rest := by
  rw [process, h]

theorem process_reading_run (mid : List Nat) :
    ∀ (buf : List Nat) (als : Bool),
      (∀ b ∈ mid, b ≠ 10 ∧ b ≠ 13 ∧ b ≠ 127 ∧ b ≠ 8) →
      match_command (buf ++ mid) = none →
      process { state := InterceptorState.ReadingCommand, buffer := buf,
                at_line_start := als } (mid ++ [10]) =
        ({ state := InterceptorState.Normal, buffer := [], at_line_start := true },
         47 :: utf8Bytes (buf ++ mid) ++ [10], []) := by
  induction mid with
  | nil =>
      intro buf als _ hmatch
      rw [List.append_nil] at hmatch
      simp [process, process_byte, process_reading, hmatch]
  | cons b bs ih =>
      intro buf als hno hmatch
      have hb := hno b (by simp)
      have hrec := ih (buf ++ [b]) als (fun x hx => hno x (by simp [hx]))
        (by rw [List.append_assoc]; simpa using hmatch)
      simp only [List.cons_append, process, process_byte, process_reading]
      rw [if_neg (by omega), if_neg (by omega)]
      simp only
      rw [show buf ++ b :: bs = (buf ++ [b]) ++ bs by simp] at hmatch ⊢
      exact hrec

/-- C10 (amended): a '/'-initiated line terminated by Enter that matches
no wrapper command forwards the '/', then each buffered byte re-encoded as
the UTF-8 of its value as a code point — so bytes below 0x80 pass through
unchanged and the forwarding is byte-identical exactly for ASCII input,
while bytes ≥ 0x80 are expanded to two bytes — then the terminating
byte. -/
theorem C10_interceptor_amended (mid : List Nat)
    (hno : ∀ b ∈ mid, b ≠ 10 ∧ b ≠ 13 ∧ b ≠ 127 ∧ b ≠ 8)
    (hmatch : match_command mid = none) :
    (process interceptor_new (47 :: mid ++ [10])).2.1 = 47 :: utf8Bytes mid ++ [10]
    ∧ ((∀ b ∈ mid, b < 128) →
        (process interceptor_new (47 :: mid ++ [10])).2.1 = 47 :: mid ++ [10]) := by
  have hrun := process_reading_run mid [] true hno (by simpa using hmatch)
  have hstep : process_byte interceptor_new 47 =
      ({ state := InterceptorState.ReadingCommand, buffer := [], at_line_start := true },
       ProcessResult.Buffer) := by
    decide
  have hmain : (process interceptor_new (47 :: mid ++ [10])).2.1 =
      47 :: utf8Bytes mid ++ [10] := by
    rw [List.cons_append, process_step_buffer _ _ _ _ hstep]
    simp only [List.nil_append] at hrun
    rw [hrun]
  refine ⟨hmain, fun hascii => ?_⟩
  rw [hmain, utf8Bytes_ascii mid hascii]

theorem C10_interceptor_amended_witness :
    (process interceptor_new (47 :: [104, 105] ++ [10])).2.1 =
      47 :: utf8Bytes [104, 105] ++ [10]
    ∧ ((∀ b ∈ [104, 105], b < 128) →
        (process interceptor_new (47 :: [104, 105] ++ [10])).2.1 =
          47 :: [104, 105] ++ [10]) :=
  C10_interceptor_amended [104, 105] (by decide) (by decide)

end Klaas
